import Mathlib

/-!
Shallow embedding of the live-state core of `term-dash` (src/main.rs):
the history buffers, the process-view builder, the selection cursor,
the input-mode state machine and the two actions (kill, inspect).

Modelling conventions:
* `u64` and `usize` values are `Nat` (no arithmetic in the claims overflows);
* the `f32` field `cpu_usage` is modelled as `Rat` (its only use is the
  comparison `b.cpu_usage().partial_cmp(&a.cpu_usage()).unwrap_or(Equal)`,
  which on non-NaN values is the total order on rationals);
* Rust `String`s are `List Char`; `to_lowercase` is `Char.toLower` mapped
  over the list, `contains` is an explicit substring search;
* the `sysinfo::System` handle is modelled by the process table it would
  report after `refresh_all` (`system_procs`); a tick takes the fresh
  snapshot as an explicit argument;
* `VecDeque::pop_front` + `push_back` on the history buffers is
  `List.tail` + append;
* Rust's stable `sort_by` is modelled by `List.insertionSort` (also a
  stable sort) under the same comparator;
* `Process::kill`, a side effect on the operating system, is modelled by
  returning the pid of the kill request that was issued (if any) next to
  the unchanged application state; the Rust function returns `()` and
  cannot fail, which the model reflects by being a total function.
-/

/-- One row of the process cache: the tuple `(Pid, String, f32, u64)`
of `App.processes` in the source. -/
structure Proc where
  pid : Nat
  name : List Char
  cpu : Rat
  mem : Nat
deriving DecidableEq

/-- The comparator used by both `sort_by` calls in `App::on_tick`:
`b.cpu_usage().partial_cmp(&a.cpu_usage()).unwrap_or(Equal)` sorts in
descending order of `cpu`. -/
def rCpu (a b : Proc) : Prop := b.cpu ≤ a.cpu

instance : DecidableRel rCpu := fun a b => inferInstanceAs (Decidable (b.cpu ≤ a.cpu))

instance : IsTotal Proc rCpu := ⟨fun a b => le_total b.cpu a.cpu⟩

instance : IsTrans Proc rCpu := ⟨fun _ _ _ h1 h2 => le_trans h2 h1⟩

/-- The `enum InputMode` of the source. -/
inductive InputMode where
  | Normal
  | Editing
  | Details
deriving DecidableEq

/-- The `enum ThemePreset` of the source. -/
inductive ThemePreset where
  | Default
  | Cyberpunk
  | Matrix
deriving DecidableEq

/-- Model of `ThemePreset::next`. -/
def ThemePreset.next : ThemePreset → ThemePreset
  | .Default => .Cyberpunk
  | .Cyberpunk => .Matrix
  | .Matrix => .Default

/-- The fragment of `ratatui::TableState` the source uses: the selected row. -/
structure TableState where
  selected : Option Nat
deriving DecidableEq

/-- The key codes the two `match` statements in `main` distinguish. -/
inductive KeyCode where
  | Char (c : Char)
  | Esc
  | Enter
  | Backspace
  | Delete
  | Down
  | Up
  | Other
deriving DecidableEq

/-- A point-in-time reading of the system, i.e. what `self.system` /
`self.networks` report right after the `refresh` calls at the top of
`App::on_tick`. -/
structure Snapshot where
  cpu_usage : Nat
  total_mem : Nat
  used_mem : Nat
  interfaces : List (Nat × Nat)
  procs : List Proc
deriving DecidableEq

/-- Model of `struct App` (the fields the live-state core reads or writes; the
`system` handle is represented by the process table it holds). -/
structure App where
  system_procs : List Proc
  cpu_history : List Nat
  mem_history : List Nat
  net_rx_history : List Nat
  net_tx_history : List Nat
  should_quit : Bool
  process_state : TableState
  processes : List Proc
  input_mode : InputMode
  search_query : List Char
  selected_pid : Option Nat
  current_theme : ThemePreset
deriving DecidableEq

/-- Model of `App::new` (the initial system refresh result is the parameter `sys`). -/
def App.new (sys : List Proc) : App :=
  { system_procs := sys
    cpu_history := List.replicate 100 0
    mem_history := List.replicate 100 0
    net_rx_history := List.replicate 100 0
    net_tx_history := List.replicate 100 0
    should_quit := false
    process_state := ⟨some 0⟩
    processes := []
    input_mode := .Normal
    search_query := []
    selected_pid := none
    current_theme := .Default }

/-- One history-buffer update of `App::on_tick`:
`pop_front()` then `push_back(v)`. -/
def histPush (l : List Nat) (v : Nat) : List Nat := l.tail ++ [v]

/-- Lowercasing, `s.map Char.toLower`, modelling `str::to_lowercase`. -/
def toLowerL (s : List Char) : List Char := s.map Char.toLower

/-- Whether the second list starts with the characters of the first
(helper for substring search). -/
def startsWithL : List Char → List Char → Bool
  | [], _ => true
  | _ :: _, [] => false
  | a :: as, b :: bs => a == b && startsWithL as bs

/-- Whether `hay` contains `needle` as a contiguous substring, modelling
`str::contains` on the character lists. -/
def containsSub (hay needle : List Char) : Bool :=
  match hay with
  | [] => needle.isEmpty
  | _ :: t => startsWithL needle hay || containsSub t needle

/-- The `retain` predicate of `App::on_tick`:
`p.name().to_lowercase().contains(&query.to_lowercase())`. -/
def matchesQuery (q : List Char) (p : Proc) : Bool :=
  containsSub (toLowerL p.name) (toLowerL q)

/-- Model of `procs.sort_by(...)` under the cpu comparator:
stable sort, descending by `cpu`. -/
def sortByCpu (l : List Proc) : List Proc := List.insertionSort rCpu l

/-- The process-cache rebuild inside `App::on_tick` (lines 192–208):
non-empty query retains the case-insensitive name matches and sorts them;
empty query sorts everything and truncates to 50. -/
def rebuildView (q : List Char) (procs : List Proc) : List Proc :=
  if q.isEmpty then (sortByCpu procs).take 50
  else sortByCpu (procs.filter (matchesQuery q))

/-- The memory-percent sample of `App::on_tick`
(`(used as f64 / total as f64 * 100.0) as u64`, `0` when `total = 0`);
the f64 quotient is exact here, and the `as u64` cast truncates, which is
`Nat` floor division. -/
def memPercent (total used : Nat) : Nat :=
  if 0 < total then used * 100 / total else 0

/-- Model of `App::on_tick` given the snapshot the refresh calls produce. -/
def App.on_tick (a : App) (s : Snapshot) : App :=
  { a with
    system_procs := s.procs
    cpu_history := histPush a.cpu_history s.cpu_usage
    mem_history := histPush a.mem_history (memPercent s.total_mem s.used_mem)
    net_rx_history := histPush a.net_rx_history ((s.interfaces.map (·.1)).sum)
    net_tx_history := histPush a.net_tx_history ((s.interfaces.map (·.2)).sum)
    processes := rebuildView a.search_query s.procs }

/-- Model of `App::next_process`. -/
def App.next_process (a : App) : App :=
  if a.processes.isEmpty then a
  else
    let i := match a.process_state.selected with
      | some i => if a.processes.length - 1 ≤ i then 0 else i + 1
      | none => 0
    { a with process_state := ⟨some i⟩ }

/-- Model of `App::previous_process`. -/
def App.previous_process (a : App) : App :=
  if a.processes.isEmpty then a
  else
    let i := match a.process_state.selected with
      | some i => if i = 0 then a.processes.length - 1 else i - 1
      | none => 0
    { a with process_state := ⟨some i⟩ }

/-- Model of `App::kill_selected_process`: the returned `Option Nat` is the pid the
kill request was issued for (`none` when any of the three lookups fails);
the application state is returned unchanged next to it. -/
def App.kill_selected_process (a : App) : App × Option Nat :=
  match a.process_state.selected with
  | some i =>
    match a.processes.get? i with
    | some p =>
      match a.system_procs.find? (fun q => q.pid == p.pid) with
      | some _ => (a, some p.pid)
      | none => (a, none)
    | none => (a, none)
  | none => (a, none)

/-- Model of `App::inspect_selected_process`. -/
def App.inspect_selected_process (a : App) : App :=
  match a.process_state.selected with
  | some i =>
    match a.processes.get? i with
    | some p => { a with selected_pid := some p.pid, input_mode := .Details }
    | none => a
  | none => a

/-- The key dispatch of `main`'s event loop (one `KeyEventKind::Press`). -/
def handle_key (a : App) (k : KeyCode) : App :=
  match a.input_mode with
  | .Normal =>
    match k with
    | .Char c =>
      if c = 'q' then { a with should_quit := true }
      else if c = 'j' then a.next_process
      else if c = 'k' then a.previous_process
      else if c = 'x' then a.kill_selected_process.1
      else if c = '/' then { a with input_mode := .Editing, process_state := ⟨some 0⟩ }
      else if c = 't' then { a with current_theme := a.current_theme.next }
      else a
    | .Esc => { a with should_quit := true }
    | .Down => a.next_process
    | .Up => a.previous_process
    | .Delete => a.kill_selected_process.1
    | .Enter => a.inspect_selected_process
    | _ => a
  | .Editing =>
    match k with
    | .Enter => { a with input_mode := .Normal }
    | .Esc => { a with input_mode := .Normal }
    | .Backspace => { a with search_query := a.search_query.dropLast }
    | .Char c => { a with search_query := a.search_query ++ [c] }
    | _ => a
  | .Details =>
    match k with
    | .Esc => { a with input_mode := .Normal, selected_pid := none }
    | .Enter => { a with input_mode := .Normal, selected_pid := none }
    | .Backspace => { a with input_mode := .Normal, selected_pid := none }
    | _ => a

/-- One observable event of the event loop: a key press or a tick. -/
inductive Op where
  | key (k : KeyCode)
  | tick (s : Snapshot)

/-- One iteration step of the event loop on the application state. -/
def step (a : App) (o : Op) : App :=
  match o with
  | .key k => handle_key a k
  | .tick s => a.on_tick s

/-- The application state after a sequence of events, starting from
`App::new` (whose initial refresh reported `sys`). -/
def run (sys : List Proc) (ops : List Op) : App :=
  ops.foldl step (App.new sys)

/-- A sample process: pid 1, name "a", 5% cpu. -/
def pA : Proc := ⟨1, ['a'], 5, 100⟩

/-- A sample process: pid 2, name "b", 50% cpu. -/
def pB : Proc := ⟨2, ['b'], 50, 200⟩

/-- A sample process: pid 3, name "ab", 10% cpu. -/
def pAB : Proc := ⟨3, ['a', 'b'], 10, 300⟩

/-- A snapshot whose process table holds `pA` and `pB`. -/
def snapAB : Snapshot := ⟨0, 0, 0, [], [pA, pB]⟩

/-- A snapshot whose process table holds only `pA`. -/
def snapA : Snapshot := ⟨0, 0, 0, [], [pA]⟩

/-- A snapshot whose process table holds `pA`, `pB` and `pAB`. -/
def snapABC : Snapshot := ⟨0, 0, 0, [], [pA, pB, pAB]⟩

/-- A run in which the view first holds two rows, the cursor moves to
row 1, and then a rebuild shrinks the view to one row. -/
def appShrunk : App := run [] [.tick snapAB, .key .Down, .tick snapA]

/-- A run that enters search-edit mode and types one character. -/
def appEdit : App := run [] [.key (.Char '/'), .key (.Char 'a')]

/-- A run with a three-row process view in Normal mode, cursor on row 0. -/
def appThree : App := run [] [.tick snapABC]

/-- The state `appThree` after confirming the selected row
(Detail-Inspect mode). -/
def appDet : App := handle_key appThree .Enter

/-- A process table of 60 entries (pid `n`, name "p", cpu `n`%), large
enough that the empty-query truncation to 50 actually binds. -/
def manyProcs : List Proc := (List.range 60).map (fun n => ⟨n, ['p'], (n : Rat), 0⟩)

/-! ## Helper lemmas -/

theorem foldl_inv {P : App → Prop} (hstep : ∀ b o, P b → P (step b o)) :
    ∀ (ops : List Op) (a : App), P a → P (ops.foldl step a)
  | [], _, h => h
  | o :: ops, a, h => foldl_inv hstep ops (step a o) (hstep a o h)

theorem histPush_length (l : List Nat) (v : Nat) (h : l.length = 100) :
    (histPush l v).length = 100 := by
  simp [histPush]
  omega

theorem kill_fst (a : App) : a.kill_selected_process.1 = a := by
  unfold App.kill_selected_process
  repeat' split
  all_goals rfl

theorem next_process_processes (a : App) : a.next_process.processes = a.processes := by
  unfold App.next_process
  split <;> rfl

theorem previous_process_processes (a : App) :
    a.previous_process.processes = a.processes := by
  unfold App.previous_process
  split <;> rfl

theorem next_process_histories (a : App) :
    a.next_process.cpu_history = a.cpu_history ∧
    a.next_process.mem_history = a.mem_history ∧
    a.next_process.net_rx_history = a.net_rx_history ∧
    a.next_process.net_tx_history = a.net_tx_history := by
  unfold App.next_process
  split <;> exact ⟨rfl, rfl, rfl, rfl⟩

theorem previous_process_histories (a : App) :
    a.previous_process.cpu_history = a.cpu_history ∧
    a.previous_process.mem_history = a.mem_history ∧
    a.previous_process.net_rx_history = a.net_rx_history ∧
    a.previous_process.net_tx_history = a.net_tx_history := by
  unfold App.previous_process
  split <;> exact ⟨rfl, rfl, rfl, rfl⟩

theorem inspect_frame (a : App) :
    a.inspect_selected_process.process_state = a.process_state ∧
    a.inspect_selected_process.cpu_history = a.cpu_history ∧
    a.inspect_selected_process.mem_history = a.mem_history ∧
    a.inspect_selected_process.net_rx_history = a.net_rx_history ∧
    a.inspect_selected_process.net_tx_history = a.net_tx_history := by
  unfold App.inspect_selected_process
  repeat' split
  all_goals exact ⟨rfl, rfl, rfl, rfl, rfl⟩

theorem next_process_isSome (a : App)
    (h : a.process_state.selected.isSome = true) :
    a.next_process.process_state.selected.isSome = true := by
  unfold App.next_process
  split
  · exact h
  · rfl

theorem previous_process_isSome (a : App)
    (h : a.process_state.selected.isSome = true) :
    a.previous_process.process_state.selected.isSome = true := by
  unfold App.previous_process
  split
  · exact h
  · rfl

theorem handle_key_histories (a : App) (k : KeyCode) :
    (handle_key a k).cpu_history = a.cpu_history ∧
    (handle_key a k).mem_history = a.mem_history ∧
    (handle_key a k).net_rx_history = a.net_rx_history ∧
    (handle_key a k).net_tx_history = a.net_tx_history := by
  unfold handle_key
  split
  · split
    · split_ifs <;>
        simp [next_process_histories, previous_process_histories, kill_fst,
          inspect_frame]
    all_goals
      simp [next_process_histories, previous_process_histories, kill_fst,
        inspect_frame]
  · split <;> exact ⟨rfl, rfl, rfl, rfl⟩
  · split <;> exact ⟨rfl, rfl, rfl, rfl⟩

theorem handle_key_isSome (a : App) (k : KeyCode)
    (h : a.process_state.selected.isSome = true) :
    (handle_key a k).process_state.selected.isSome = true := by
  unfold handle_key
  split
  · split
    · split_ifs <;>
        first
          | exact h
          | exact next_process_isSome a h
          | exact previous_process_isSome a h
          | (rw [kill_fst]; exact h)
          | rfl
    all_goals
      first
        | exact h
        | exact next_process_isSome a h
        | exact previous_process_isSome a h
        | (rw [kill_fst]; exact h)
        | (rw [(inspect_frame a).1]; exact h)
  · split <;> exact h
  · split <;> exact h

/-! ## Claim theorems -/

/-- Claim C7: the terminate action never surfaces an error and never
changes any application state: for every state — including a cursor index
out of bounds of the process view, or a selected pid no longer present in
the system — `kill_selected_process` returns normally (it is a total
function) and leaves the application state equal to its input. -/
theorem kill_never_changes_state (a : App) : a.kill_selected_process.1 = a :=
  kill_fst a

/-- Claim C10: a tick leaves `input_mode`, `search_query`, `selected_pid`,
`current_theme`, `should_quit` and the cursor (`process_state`) unchanged
for every input state; in particular `on_tick` performs no cursor
re-clamping. -/
theorem on_tick_frame (a : App) (s : Snapshot) :
    (a.on_tick s).input_mode = a.input_mode ∧
    (a.on_tick s).search_query = a.search_query ∧
    (a.on_tick s).selected_pid = a.selected_pid ∧
    (a.on_tick s).current_theme = a.current_theme ∧
    (a.on_tick s).should_quit = a.should_quit ∧
    (a.on_tick s).process_state = a.process_state :=
  ⟨rfl, rfl, rfl, rfl, rfl, rfl⟩

/-- Claim C8: in Normal mode, pressing the filter key `'/'` sets the
cursor to row 0 and moves the input mode to search-edit (`Editing`). -/
theorem filter_key_resets_cursor (a : App) (h : a.input_mode = InputMode.Normal) :
    (handle_key a (.Char '/')).process_state.selected = some 0 ∧
    (handle_key a (.Char '/')).input_mode = InputMode.Editing := by
  unfold handle_key
  rw [h]
  exact ⟨rfl, rfl⟩

/-- Witness for `filter_key_resets_cursor` at the concrete state
`appThree` (which is in Normal mode). -/
theorem filter_key_resets_cursor_witness :
    (handle_key appThree (.Char '/')).process_state.selected = some 0 ∧
    (handle_key appThree (.Char '/')).input_mode = InputMode.Editing :=
  filter_key_resets_cursor appThree (by decide)

/-- Claim C9: the cursor is never absent — `process_state.selected` is
initialized to `some 0` by `App::new` and is `some _` in every reachable
state, even while the process view is empty. -/
theorem cursor_never_absent (sys : List Proc) (ops : List Op) :
    (App.new sys).process_state.selected = some 0 ∧
    ((run sys ops).process_state.selected).isSome = true := by
  refine ⟨rfl, ?_⟩
  refine foldl_inv (P := fun b => b.process_state.selected.isSome = true)
    ?_ ops (App.new sys) rfl
  intro b o hb
  cases o with
  | key k => exact handle_key_isSome b k hb
  | tick s => exact hb

/-- Claim C4: each history buffer is constructed holding exactly 100
zeroes, every reachable state keeps all four buffers at length exactly
100, and a push is the FIFO shift of the spec scenario (capacity 3:
`[0,0,0]`, push 10 gives `[0,0,10]`, push 20 gives `[0,10,20]`). -/
theorem history_buffers_invariant (sys : List Proc) (ops : List Op) :
    ((App.new sys).cpu_history = List.replicate 100 0 ∧
     (App.new sys).mem_history = List.replicate 100 0 ∧
     (App.new sys).net_rx_history = List.replicate 100 0 ∧
     (App.new sys).net_tx_history = List.replicate 100 0) ∧
    ((run sys ops).cpu_history.length = 100 ∧
     (run sys ops).mem_history.length = 100 ∧
     (run sys ops).net_rx_history.length = 100 ∧
     (run sys ops).net_tx_history.length = 100) ∧
    (histPush [0, 0, 0] 10 = [0, 0, 10] ∧
     histPush (histPush [0, 0, 0] 10) 20 = [0, 10, 20]) := by
  refine ⟨⟨rfl, rfl, rfl, rfl⟩, ?_, ⟨rfl, rfl⟩⟩
  refine foldl_inv
    (P := fun b => b.cpu_history.length = 100 ∧ b.mem_history.length = 100 ∧
      b.net_rx_history.length = 100 ∧ b.net_tx_history.length = 100)
    ?_ ops (App.new sys) (by simp [App.new])
  intro b o hb
  cases o with
  | key k =>
    obtain ⟨h1, h2, h3, h4⟩ := handle_key_histories b k
    exact ⟨by rw [show (step b (.key k)).cpu_history = b.cpu_history from h1]; exact hb.1,
           by rw [show (step b (.key k)).mem_history = b.mem_history from h2]; exact hb.2.1,
           by rw [show (step b (.key k)).net_rx_history = b.net_rx_history from h3]; exact hb.2.2.1,
           by rw [show (step b (.key k)).net_tx_history = b.net_tx_history from h4]; exact hb.2.2.2⟩
  | tick s =>
    exact ⟨histPush_length _ _ hb.1, histPush_length _ _ hb.2.1,
           histPush_length _ _ hb.2.2.1, histPush_length _ _ hb.2.2.2⟩

/-- Counterexample to claim C2 as stated: in the reachable search-edit
state `appEdit` (query `"a"`), pressing escape returns to Normal mode but
does **not** clear the search query — it stays `"a"`, not `""`. -/
theorem searchEdit_escape_counterexample :
    appEdit.input_mode = InputMode.Editing ∧
    appEdit.search_query = ['a'] ∧
    (handle_key appEdit .Esc).input_mode = InputMode.Normal ∧
    (handle_key appEdit .Esc).search_query = ['a'] ∧
    ¬ (handle_key appEdit .Esc).search_query = [] := by
  decide

/-- Claim C2 (amended): in search-edit (`Editing`) mode, pressing escape
returns to Normal mode and leaves the search query unchanged (it is not
cleared), and pressing Enter returns to Normal mode and leaves the query
exactly as entered. -/
theorem searchEdit_exit_preserves_query (a : App)
    (h : a.input_mode = InputMode.Editing) :
    (handle_key a .Esc).input_mode = InputMode.Normal ∧
    (handle_key a .Esc).search_query = a.search_query ∧
    (handle_key a .Enter).input_mode = InputMode.Normal ∧
    (handle_key a .Enter).search_query = a.search_query := by
  unfold handle_key
  rw [h]
  exact ⟨rfl, rfl, rfl, rfl⟩

/-- Witness for `searchEdit_exit_preserves_query` at the concrete
search-edit state `appEdit`. -/
theorem searchEdit_exit_preserves_query_witness :
    (handle_key appEdit .Esc).input_mode = InputMode.Normal ∧
    (handle_key appEdit .Esc).search_query = appEdit.search_query ∧
    (handle_key appEdit .Enter).input_mode = InputMode.Normal ∧
    (handle_key appEdit .Enter).search_query = appEdit.search_query :=
  searchEdit_exit_preserves_query appEdit (by decide)

/-- Claim C6: Enter in Normal mode, with the cursor designating an entry
of the process view, records that entry's pid in `selected_pid` and moves
to Detail-Inspect (`Details`) mode; escape, Enter or backspace in
`Details` mode clears `selected_pid` and returns to Normal mode. -/
theorem inspect_transitions :
    (∀ (a : App) (i : Nat) (p : Proc),
      a.input_mode = InputMode.Normal →
      a.process_state.selected = some i →
      a.processes.get? i = some p →
      (handle_key a .Enter).selected_pid = some p.pid ∧
      (handle_key a .Enter).input_mode = InputMode.Details) ∧
    (∀ (a : App) (k : KeyCode),
      a.input_mode = InputMode.Details →
      (k = .Esc ∨ k = .Enter ∨ k = .Backspace) →
      (handle_key a k).selected_pid = none ∧
      (handle_key a k).input_mode = InputMode.Normal) := by
  constructor
  · intro a i p hm hs hg
    have hik : handle_key a .Enter = a.inspect_selected_process := by
      unfold handle_key
      rw [hm]
    rw [hik]
    unfold App.inspect_selected_process
    split <;> simp_all
  · intro a k hm hk
    rcases hk with rfl | rfl | rfl <;>
      · unfold handle_key
        rw [hm]
        exact ⟨rfl, rfl⟩

/-- Witness for `inspect_transitions`: entering details from `appThree`
(cursor on row 0, whose entry is `pB`), and leaving details from
`appDet`. -/
theorem inspect_transitions_witness :
    ((handle_key appThree .Enter).selected_pid = some pB.pid ∧
     (handle_key appThree .Enter).input_mode = InputMode.Details) ∧
    ((handle_key appDet .Esc).selected_pid = none ∧
     (handle_key appDet .Esc).input_mode = InputMode.Normal) :=
  ⟨inspect_transitions.1 appThree 0 pB (by decide) (by decide) (by decide),
   inspect_transitions.2 appDet .Esc (by decide) (Or.inl rfl)⟩

theorem next_sel (a : App) (i : Nat) (h : a.process_state.selected = some i)
    (hl : i < a.processes.length) :
    a.next_process.process_state.selected = some ((i + 1) % a.processes.length) ∧
    a.next_process.processes = a.processes := by
  have hne : a.processes.isEmpty = false := by
    cases hp : a.processes
    · rw [hp] at hl; simp at hl
    · rfl
  unfold App.next_process
  rw [hne, h]
  refine ⟨?_, rfl⟩
  show some (if a.processes.length - 1 ≤ i then 0 else i + 1) =
    some ((i + 1) % a.processes.length)
  by_cases hc : a.processes.length - 1 ≤ i
  · have hip : i + 1 = a.processes.length := by omega
    rw [if_pos hc, hip, Nat.mod_self]
  · rw [if_neg hc, Nat.mod_eq_of_lt (by omega)]

theorem next_iter (k : Nat) :
    ∀ (a : App) (i : Nat), a.process_state.selected = some i →
      i < a.processes.length →
      (App.next_process^[k] a).process_state.selected =
        some ((i + k) % a.processes.length) ∧
      (App.next_process^[k] a).processes = a.processes := by
  induction k with
  | zero =>
    intro a i h hl
    simpa [h] using (Nat.mod_eq_of_lt hl).symm
  | succ k ih =>
    intro a i h hl
    have hlen0 : 0 < a.processes.length := by omega
    have h1 := next_sel a i h hl
    have h2 := ih a.next_process ((i + 1) % a.processes.length) h1.1
      (by rw [h1.2]; exact Nat.mod_lt _ hlen0)
    rw [Function.iterate_succ_apply]
    refine ⟨?_, by rw [h2.2, h1.2]⟩
    rw [h2.1, h1.2]
    have harith : i + 1 + k = i + (k + 1) := by omega
    rw [Nat.mod_add_mod, harith]

theorem prev_next_eq (a : App) (i : Nat) (h : a.process_state.selected = some i)
    (hl : i < a.processes.length) :
    a.next_process.previous_process = a := by
  cases a with
  | mk sys ch mh nrx ntx sq ps pr im q sp th =>
    cases ps with
    | mk sel =>
      have h' : sel = some i := h
      subst h'
      have hl' : i < pr.length := hl
      have hne : pr.isEmpty = false := by
        cases pr
        · simp at hl'
        · rfl
      unfold App.next_process App.previous_process
      simp [hne]
      split_ifs <;> omega

theorem next_prev_eq (a : App) (i : Nat) (h : a.process_state.selected = some i)
    (hl : i < a.processes.length) :
    a.previous_process.next_process = a := by
  cases a with
  | mk sys ch mh nrx ntx sq ps pr im q sp th =>
    cases ps with
    | mk sel =>
      have h' : sel = some i := h
      subst h'
      have hl' : i < pr.length := hl
      have hne : pr.isEmpty = false := by
        cases pr
        · simp at hl'
        · rfl
      unfold App.next_process App.previous_process
      simp [hne]
      split_ifs <;> omega

/-- Claim C5: on a non-empty view with an in-range cursor, composing
`next_process` `len(view)` times returns the cursor to its original
index, and `previous_process` is the inverse of `next_process` (in both
orders, as full application states); on an empty view both operations
leave the state unchanged. -/
theorem cursor_cyclic_inverse :
    (∀ (a : App) (i : Nat), a.process_state.selected = some i →
      i < a.processes.length →
      (App.next_process^[a.processes.length] a).process_state.selected = some i ∧
      a.next_process.previous_process = a ∧
      a.previous_process.next_process = a) ∧
    (∀ a : App, a.processes = [] →
      a.next_process = a ∧ a.previous_process = a) := by
  constructor
  · intro a i h hl
    refine ⟨?_, prev_next_eq a i h hl, next_prev_eq a i h hl⟩
    rw [(next_iter a.processes.length a i h hl).1, Nat.add_mod_right,
      Nat.mod_eq_of_lt hl]
  · intro a h
    have hne : a.processes.isEmpty = true := by rw [h]; rfl
    constructor
    · unfold App.next_process
      simp [hne]
    · unfold App.previous_process
      simp [hne]

/-- Witness for `cursor_cyclic_inverse`: the three-row view of
`appThree` with cursor 0, and the empty view of `App.new []`. -/
theorem cursor_cyclic_inverse_witness :
    ((App.next_process^[appThree.processes.length] appThree).process_state.selected
        = some 0 ∧
      appThree.next_process.previous_process = appThree ∧
      appThree.previous_process.next_process = appThree) ∧
    ((App.new []).next_process = App.new [] ∧
      (App.new []).previous_process = App.new []) :=
  ⟨cursor_cyclic_inverse.1 appThree 0 (by decide) (by decide),
   cursor_cyclic_inverse.2 (App.new []) rfl⟩

/-- Claim C3: for every process map and query — if the query is empty the
rebuilt view is the top 50 of the processes sorted descending by cpu
(sorted, length `min 50 n`, a sub-permutation of the input, and the view
together with the remaining processes is a permutation of the whole input
in which every left-out process has cpu at most that of every shown one);
if the query is non-empty the view is exactly (a permutation of) the
processes whose lowercased name contains the lowercased query, sorted
descending by cpu, with no truncation (its length equals the number of
matches). -/
theorem rebuild_view_spec (q : List Char) (procs : List Proc) :
    (q ≠ [] →
      (rebuildView q procs).Perm (procs.filter (matchesQuery q)) ∧
      List.Sorted rCpu (rebuildView q procs) ∧
      (rebuildView q procs).length = (procs.filter (matchesQuery q)).length) ∧
    (q = [] →
      List.Sorted rCpu (rebuildView q procs) ∧
      (rebuildView q procs).length = min 50 procs.length ∧
      (rebuildView q procs).Subperm procs ∧
      ∃ rest, (rebuildView q procs ++ rest).Perm procs ∧
        ∀ p ∈ rebuildView q procs, ∀ r ∈ rest, r.cpu ≤ p.cpu) := by
  constructor
  · intro hq
    have hq' : q.isEmpty = false := by
      cases q with
      | nil => exact absurd rfl hq
      | cons c cs => rfl
    have hv : rebuildView q procs = sortByCpu (procs.filter (matchesQuery q)) := by
      simp [rebuildView, hq']
    rw [hv]
    unfold sortByCpu
    exact ⟨List.perm_insertionSort rCpu _, List.sorted_insertionSort rCpu _,
      List.length_insertionSort rCpu _⟩
  · intro hq
    subst hq
    have hv : rebuildView [] procs = (sortByCpu procs).take 50 := by
      simp [rebuildView]
    have hs : List.Sorted rCpu (sortByCpu procs) :=
      List.sorted_insertionSort rCpu procs
    have hsplit : (sortByCpu procs).take 50 ++ (sortByCpu procs).drop 50 =
        sortByCpu procs := List.take_append_drop 50 _
    have hcross : ∀ p ∈ (sortByCpu procs).take 50,
        ∀ r ∈ (sortByCpu procs).drop 50, rCpu p r := by
      have hpw : List.Pairwise rCpu
          ((sortByCpu procs).take 50 ++ (sortByCpu procs).drop 50) := by
        rw [hsplit]
        exact hs
      exact (List.pairwise_append.mp hpw).2.2
    rw [hv]
    refine ⟨?_, ?_, ?_, (sortByCpu procs).drop 50, ?_, hcross⟩
    · exact List.Pairwise.sublist (List.take_sublist 50 _) hs
    · rw [List.length_take,
        show (sortByCpu procs).length = procs.length from
          List.length_insertionSort rCpu procs]
    · exact (List.Sublist.subperm (List.take_sublist 50 _)).trans
        (List.Perm.subperm (List.perm_insertionSort rCpu procs))
    · rw [hsplit]
      exact List.perm_insertionSort rCpu procs

/-- Witness for `rebuild_view_spec`: the spec scenario's process table
(pids 1 "a" cpu 5, 2 "b" cpu 50, 3 "ab" cpu 10) with query "a", and the
60-entry table `manyProcs` with the empty query, where the truncation to
50 binds (`min 50 60 = 50`). -/
theorem rebuild_view_spec_witness :
    ((rebuildView ['a'] [pA, pB, pAB]).Perm
        ([pA, pB, pAB].filter (matchesQuery ['a'])) ∧
      List.Sorted rCpu (rebuildView ['a'] [pA, pB, pAB]) ∧
      (rebuildView ['a'] [pA, pB, pAB]).length =
        ([pA, pB, pAB].filter (matchesQuery ['a'])).length) ∧
    (manyProcs.length = 60 ∧
      List.Sorted rCpu (rebuildView [] manyProcs) ∧
      (rebuildView [] manyProcs).length = min 50 manyProcs.length ∧
      (rebuildView [] manyProcs).Subperm manyProcs ∧
      ∃ rest, (rebuildView [] manyProcs ++ rest).Perm manyProcs ∧
        ∀ p ∈ rebuildView [] manyProcs, ∀ r ∈ rest, r.cpu ≤ p.cpu) :=
  ⟨(rebuild_view_spec ['a'] [pA, pB, pAB]).1 (by decide),
   by simp [manyProcs],
   (rebuild_view_spec [] manyProcs).2 rfl⟩

/-- Counterexample to claim C1 as stated: in the reachable state
`appShrunk` — view of two rows, cursor moved to row 1, then a tick that
shrinks the view to one row — the view is non-empty but the cursor index
1 is not below the view length 1: `on_tick` never re-clamps the cursor. -/
theorem cursor_invariant_counterexample :
    appShrunk.processes.length = 1 ∧
    appShrunk.process_state.selected = some 1 ∧
    ¬ (1 < appShrunk.processes.length) := by
  decide

/-- Claim C1 (amended): on a non-empty view, `next_process` always lands
the cursor in `[0, len)`; `previous_process` lands it in `[0, len)`
whenever the cursor was previously in range or unset. A tick-rebuild
performs no re-clamping, so after a rebuild that shrinks the view the
cursor can sit outside `[0, len)` until the next navigation (see the
counterexample). -/
theorem cursor_navigation_in_range (a : App) (h : a.processes ≠ []) :
    (∃ i, a.next_process.process_state.selected = some i ∧
      i < a.processes.length) ∧
    (∀ i0, a.process_state.selected = some i0 → i0 < a.processes.length →
      ∃ j, a.previous_process.process_state.selected = some j ∧
        j < a.processes.length) ∧
    (a.process_state.selected = none →
      ∃ j, a.previous_process.process_state.selected = some j ∧
        j < a.processes.length) := by
  have hlen : 0 < a.processes.length := List.length_pos.mpr h
  have hne : a.processes.isEmpty = false := by
    cases hp : a.processes
    · exact absurd hp h
    · rfl
  refine ⟨?_, ?_, ?_⟩
  · unfold App.next_process
    rw [hne]
    refine ⟨_, rfl, ?_⟩
    cases hs : a.process_state.selected with
    | none => simpa using hlen
    | some i0 =>
      simp only []
      split_ifs <;> omega
  · intro i0 hs hi
    unfold App.previous_process
    rw [hne, hs]
    refine ⟨_, rfl, ?_⟩
    simp only []
    split_ifs <;> omega
  · intro hs
    unfold App.previous_process
    rw [hne, hs]
    exact ⟨0, rfl, hlen⟩

/-- Witness for `cursor_navigation_in_range` at the concrete state
`appThree` (three rows, cursor `some 0`). -/
theorem cursor_navigation_in_range_witness :
    (∃ i, appThree.next_process.process_state.selected = some i ∧
      i < appThree.processes.length) ∧
    (∃ j, appThree.previous_process.process_state.selected = some j ∧
      j < appThree.processes.length) :=
  ⟨(cursor_navigation_in_range appThree (by decide)).1,
   (cursor_navigation_in_range appThree (by decide)).2.1 0 (by decide) (by decide)⟩
